import Mathlib

/-!
Verification of the synchronization and object-linkage core of the
`xuchang-vivo/kernel` repository: the reader/writer spinlock and its
interrupt-safe guards (`src/kernel/src/sync/spinlock.rs`), the intrusive
field-offset adapters (`src/infra/src/intrusive.rs`), and the
reference-counted intrusive list layer (`src/kernel/src/types.rs`).

Pure arithmetic (adapter offsets) is embedded directly from the source.
Stateful lock/guard code is embedded as explicit state passing over a
system state together with an event trace, so that ordering properties
(interrupts disabled before acquisition, lock released before interrupts
restored) become properties of concrete traces.
-/

namespace KernelCore

/-! ## Reader/writer lock state machine

Modelled from the spec: the `RwLock` implementation (`tinyrwlock`) lives in
the `blueos_infra` crate and is not among the provided sources; only its
caller `SpinLock` (src/kernel/src/sync/spinlock.rs) is. The spec gives its
state machine as {Unlocked, SharedLocked(n≥1), ExclusiveLocked} with
`try_write` succeeding only from Unlocked and `try_read` from Unlocked or
SharedLocked(n). -/

inductive LockState where
  | unlocked : LockState
  | shared : Nat → LockState
  | exclusive : LockState
deriving DecidableEq, Repr

namespace LockState

/-- `try_write`: succeeds only from `unlocked`, moving to `exclusive`. -/
def tryWrite : LockState → Option LockState
  | .unlocked => some .exclusive
  | _ => none

/-- `try_read`: succeeds from `unlocked` (→ one reader) or `shared n`
(→ `shared (n+1)`); fails while a writer holds the lock. -/
def tryRead : LockState → Option LockState
  | .unlocked => some (.shared 1)
  | .shared n => some (.shared (n + 1))
  | .exclusive => none

/-- Release of one reader: the last reader returns the lock to `unlocked`. -/
def releaseRead : LockState → Option LockState
  | .shared 1 => some .unlocked
  | .shared (n + 2) => some (.shared (n + 1))
  | _ => none

/-- Release of the writer returns the lock to `unlocked`. -/
def releaseWrite : LockState → Option LockState
  | .exclusive => some .unlocked
  | _ => none

/-- Number of writers holding the lock in a given state. -/
def writers : LockState → Nat
  | .exclusive => 1
  | _ => 0

/-- Number of readers holding the lock in a given state. -/
def readers : LockState → Nat
  | .shared n => n
  | _ => 0

/-- States reachable from `unlocked` through the four transitions. -/
inductive Reachable : LockState → Prop where
  | init : Reachable .unlocked
  | write {s s'} : Reachable s → tryWrite s = some s' → Reachable s'
  | read {s s'} : Reachable s → tryRead s = some s' → Reachable s'
  | rrel {s s'} : Reachable s → releaseRead s = some s' → Reachable s'
  | wrel {s s'} : Reachable s → releaseWrite s = some s' → Reachable s'

/-- The structural invariant maintained by every transition: any shared
state has at least one reader. -/
def WF : LockState → Prop
  | .shared n => 1 ≤ n
  | _ => True

theorem wf_of_reachable {s : LockState} (h : Reachable s) : WF s := by
  induction h with
  | init => trivial
  | @write s s' _ hw _ =>
      cases s with
      | unlocked =>
          simp only [tryWrite, Option.some.injEq] at hw
          subst hw; trivial
      | shared n => simp [tryWrite] at hw
      | exclusive => simp [tryWrite] at hw
  | @read s s' _ hr _ =>
      cases s with
      | unlocked =>
          simp only [tryRead, Option.some.injEq] at hr
          subst hr; simp [WF]
      | shared n =>
          simp only [tryRead, Option.some.injEq] at hr
          subst hr; simp [WF]
      | exclusive => simp [tryRead] at hr
  | @rrel s s' _ hr _ =>
      cases s with
      | unlocked => simp [releaseRead] at hr
      | exclusive => simp [releaseRead] at hr
      | shared n =>
          match n, hr with
          | 0, hr => simp [releaseRead] at hr
          | 1, hr =>
              simp only [releaseRead, Option.some.injEq] at hr
              subst hr; trivial
          | m + 2, hr =>
              simp only [releaseRead, Option.some.injEq] at hr
              subst hr; simp [WF]
  | @wrel s s' _ hw _ =>
      cases s with
      | unlocked => simp [releaseWrite] at hw
      | shared n => simp [releaseWrite] at hw
      | exclusive =>
          simp only [releaseWrite, Option.some.injEq] at hw
          subst hw; trivial

end LockState

/-! ## Offset adapters (src/infra/src/intrusive.rs)

An `Adapter` is a type-level capability yielding the byte offset of a field
within a host type; it carries no other state, so it is embedded as a
structure holding that offset.  `Relative` composes with
`From::offset().wrapping_sub(To::offset())` on `usize`; `Nested` with
`S::offset() + T::offset()` (const-evaluated, so overflow is a compile
error, never wrapping). -/

/-- Word size of the target: offsets are `usize` values. -/
def W64 : Nat := 2 ^ 64

/-- `usize::wrapping_sub` on a 64-bit target. -/
def wrappingSub64 (a b : Nat) : Nat := (a % W64 + (W64 - b % W64)) % W64

structure Adapter where
  offset : Nat
deriving DecidableEq, Repr

/-- `Relative<T, From, To, S>::offset() = From::offset().wrapping_sub(To::offset())`. -/
def Relative (frm tgt : Adapter) : Adapter := ⟨wrappingSub64 frm.offset tgt.offset⟩

/-- `Nested<P, S, N, T>::offset() = S::offset() + T::offset()`. -/
def Nested (s t : Adapter) : Adapter := ⟨s.offset + t.offset⟩

/-- Interpretation of a `usize` value as a two's-complement signed integer,
the reading under which a wrapped subtraction is the signed difference. -/
def toSigned64 (x : Nat) : Int := if x < 2 ^ 63 then (x : Int) else (x : Int) - W64

/-! ### The concrete `repr(C)` layout of the test struct `Foo`

`Foo { a: u32, b: u32 }` with `#[repr(C)]`: fields laid out in declaration
order, each at the next multiple of its alignment. -/

/-- Round `n` up to the next multiple of alignment `a`. -/
def alignUp (n a : Nat) : Nat := if a = 0 then n else (n + a - 1) / a * a

/-- Byte offset of field `i` in a `repr(C)` struct described by its list of
(size, alignment) pairs in declaration order. -/
def offsetC (fields : List (Nat × Nat)) (i : Nat) : Nat :=
  go 0 fields i
where
  go (acc : Nat) : List (Nat × Nat) → Nat → Nat
    | [], _ => acc
    | (_, al) :: _, 0 => alignUp acc al
    | (sz, al) :: rest, n + 1 => go (alignUp acc al + sz) rest n

/-- Layout of the test struct `Foo { a: u32, b: u32 }`: two 4-byte,
4-aligned fields. -/
def fooFields : List (Nat × Nat) := [(4, 4), (4, 4)]

/-- Adapter `A` locating field `a` of `Foo`. -/
def fooA : Adapter := ⟨offsetC fooFields 0⟩

/-- Adapter `B` locating field `b` of `Foo`. -/
def fooB : Adapter := ⟨offsetC fooFields 1⟩

/-! ## Interrupt masking and spinlock guards (src/kernel/src/sync/spinlock.rs)

The stateful code is embedded as explicit state passing over `Sys`
(interrupt-enable flag plus lock state) together with an event trace. -/

/-- Observable events of the lock/irq subsystem. -/
inductive Ev where
  | disableIrq : Ev
  | restoreIrq : Bool → Ev
  | acquireWrite : Ev
  | acquireRead : Ev
  | releaseWrite : Ev
  | releaseRead : Ev
deriving DecidableEq, Repr

/-- System state seen by one lock: the interrupt-enable flag of the local
core and the lock's state. -/
structure Sys where
  irqOn : Bool
  lockSt : LockState
deriving DecidableEq, Repr

/-- Modelled from the spec: `DisableInterruptGuard` (crate::support, not
among the provided sources) disables interrupts on construction, recording
the prior interrupt-enable state, and restores that prior state when
dropped. -/
structure DisableInterruptGuard where
  saved : Bool
deriving DecidableEq, Repr

/-- `DisableInterruptGuard::new()`: record the current interrupt-enable
state and disable interrupts. -/
def digNew (s : Sys) : DisableInterruptGuard × Sys × List Ev :=
  (⟨s.irqOn⟩, { s with irqOn := false }, [.disableIrq])

/-- Dropping a `DisableInterruptGuard` restores the recorded prior state. -/
def digDrop (g : DisableInterruptGuard) (s : Sys) : Sys × List Ev :=
  ({ s with irqOn := g.saved }, [.restoreIrq g.saved])

namespace SpinLock

/-- `SpinLockGuard`: the write-lock guard.  Holding the write lock is
recorded in `Sys.lockSt`; the guard itself carries only the optional
interrupt-restore capability, mirroring the `irq_guard` field. -/
structure Guard where
  irqGuard : Option DisableInterruptGuard
deriving DecidableEq, Repr

/-- `SpinLockReadGuard`: the read-lock guard. -/
structure ReadGuard where
  irqGuard : Option DisableInterruptGuard
deriving DecidableEq, Repr

/-- `SpinLock::try_lock`: `self.lock.try_write()?`, wrapping the lock guard
with `irq_guard: None`. -/
def tryLock (s : Sys) : Option Guard × Sys × List Ev :=
  match LockState.tryWrite s.lockSt with
  | none => (none, s, [])
  | some l => (some ⟨none⟩, { s with lockSt := l }, [.acquireWrite])

/-- `SpinLock::try_read`: `self.lock.try_read()?`, wrapping the lock guard
with `irq_guard: None`. -/
def tryRead (s : Sys) : Option ReadGuard × Sys × List Ev :=
  match LockState.tryRead s.lockSt with
  | none => (none, s, [])
  | some l => (some ⟨none⟩, { s with lockSt := l }, [.acquireRead])

/-- `SpinLock::try_irqsave_lock`: take a `DisableInterruptGuard` first,
then `try_lock`; on failure the `?` return drops the interrupt guard (its
restore runs), on success the guard is stored into the lock guard. -/
def tryIrqsaveLock (s : Sys) : Option Guard × Sys × List Ev :=
  let (ig, s1, e1) := digNew s
  match tryLock s1 with
  | (none, s2, e2) =>
      let (s3, e3) := digDrop ig s2
      (none, s3, e1 ++ e2 ++ e3)
  | (some g, s2, e2) => (some { g with irqGuard := some ig }, s2, e1 ++ e2)

/-- `SpinLock::try_irqsave_read`: same shape as `try_irqsave_lock` over
`try_read`. -/
def tryIrqsaveRead (s : Sys) : Option ReadGuard × Sys × List Ev :=
  let (ig, s1, e1) := digNew s
  match tryRead s1 with
  | (none, s2, e2) =>
      let (s3, e3) := digDrop ig s2
      (none, s3, e1 ++ e2 ++ e3)
  | (some g, s2, e2) => (some { g with irqGuard := some ig }, s2, e1 ++ e2)

/-- Release of the write lock performed by dropping the inner
`RwLockWriteGuard`. -/
def dropWriteLock (s : Sys) : Sys × List Ev :=
  ({ s with lockSt := match s.lockSt with
      | .exclusive => .unlocked
      | l => l }, [.releaseWrite])

/-- Release of one read share performed by dropping the inner
`RwLockReadGuard`. -/
def dropReadLock (s : Sys) : Sys × List Ev :=
  ({ s with lockSt := match s.lockSt with
      | .shared 1 => .unlocked
      | .shared (n + 2) => .shared (n + 1)
      | l => l }, [.releaseRead])

/-- Dropping a `SpinLockGuard`.  The struct is `#[repr(C)]` with
`lock_guard` declared before `irq_guard`, and Rust drops fields in
declaration order, so the lock is released before interrupts are
restored. -/
def dropGuard (g : Guard) (s : Sys) : Sys × List Ev :=
  let (s1, e1) := dropWriteLock s
  match g.irqGuard with
  | none => (s1, e1)
  | some ig =>
      let (s2, e2) := digDrop ig s1
      (s2, e1 ++ e2)

/-- Dropping a `SpinLockReadGuard`: read-lock release, then irq restore. -/
def dropReadGuard (g : ReadGuard) (s : Sys) : Sys × List Ev :=
  let (s1, e1) := dropReadLock s
  match g.irqGuard with
  | none => (s1, e1)
  | some ig =>
      let (s2, e2) := digDrop ig s1
      (s2, e1 ++ e2)

/-- `SpinLockGuard::take_irq_guard`: `self.irq_guard = other.irq_guard.take()`.
The assignment drops `self`'s previous capability (running its restore);
`other` is left without a capability.  Returns the updated pair and the
events of the overwrite. -/
def takeIrqGuard (self other : Guard) (s : Sys) : Guard × Guard × Sys × List Ev :=
  match self.irqGuard with
  | none => (⟨other.irqGuard⟩, ⟨none⟩, s, [])
  | some old =>
      let (s1, e1) := digDrop old s
      (⟨other.irqGuard⟩, ⟨none⟩, s1, e1)

/-- `SpinLockGuard::forget_irq`: if no capability is held, return
unchanged; otherwise `mem::forget` the capability — it is discarded
without its restore ever running. -/
def forgetIrq (g : Guard) : Guard × List Ev :=
  match g.irqGuard with
  | none => (g, [])
  | some _ => (⟨none⟩, [])

/-- Number of interrupt-restore events in a trace. -/
def restores (tr : List Ev) : Nat :=
  tr.countP fun e => match e with
    | .restoreIrq _ => true
    | _ => false

/-- Whether a guard currently holds the interrupt-restore capability. -/
def responsible (g : Guard) : Bool := g.irqGuard.isSome

/-- `SpinLock::irqsave_lock`: spin, retrying `try_irqsave_lock` until it
succeeds; embedded with explicit fuel since the source loop can spin
forever under contention. -/
def irqsaveLock : Nat → Sys → Option (Guard × Sys × List Ev)
  | 0, _ => none
  | fuel + 1, s =>
      match tryIrqsaveLock s with
      | (some g, s1, ev) => some (g, s1, ev)
      | (none, s1, _) => irqsaveLock fuel s1

end SpinLock

/-! ## Intrusive list operations (TinyArcList)

Modelled from the spec: the `TinyArcList` implementation (`blueos_infra`'s
`tinyarc` module) is not among the provided sources; only its callers
`UniqueListHead::insert` / `UniqueListHead::detach`
(src/kernel/src/types.rs) are.  The spec: `insert_after` consumes a handle
into the list but rejects a node that is already linked (detected via its
link state) without touching any list; `detach` removes a linked node from
wherever it is linked and is a no-op returning `false` on an unlinked
node.  Nodes are identified by `Nat` ids; the world is the collection of
all lists. -/

namespace ArcList

/-- All intrusive lists in the system, each a sequence of node ids. -/
abbrev Lists := List (List Nat)

/-- A node's link state: it is linked iff it appears in some list. -/
def linked (ls : Lists) (x : Nat) : Bool :=
  ls.any fun l => l.contains x

/-- `insert_after(head, node)`: if the node is already linked, reject and
report no effect; otherwise thread it right after the head of list `i`. -/
def insertAfter (ls : Lists) (i : Nat) (x : Nat) : Lists × Bool :=
  if linked ls x then (ls, false)
  else (ls.mapIdx fun j l => if j = i then x :: l else l, true)

/-- `detach(node)`: if the node is not linked anywhere, report no effect;
otherwise unlink it from where it is linked, returning ownership of the
handle to the caller. -/
def detach (ls : Lists) (x : Nat) : Lists × Bool :=
  if linked ls x then (ls.map fun l => l.filter fun y => y != x, true)
  else (ls, false)

end ArcList

/-! ## Atomic reference-counted pointer (TinyArc)

Modelled from the spec: the `TinyArc` implementation is not among the
provided sources.  The spec: `new` sets the strong count to 1; `clone`
increments it; `drop` decrements it and releases the value exactly when
the count reaches zero; the count never underflows.  A sequence of
`clone`/`drop` calls on live handles is run from count 1; an operation on
a dead value (count 0) is invalid and the run fails. -/

namespace TinyArc

inductive Op where
  | clone : Op
  | drop : Op
deriving DecidableEq, Repr

/-- Run a sequence of operations from strong count `c`, accumulating in
`rel` the number of times the value has been released.  `clone` on a live
value increments the count; `drop` decrements it and releases the value
exactly when the count reaches zero; any operation on a dead value
(count 0) is invalid and fails the run. -/
def run (c rel : Nat) : List Op → Option (Nat × Nat)
  | [] => some (c, rel)
  | .clone :: ops => if c = 0 then none else run (c + 1) rel ops
  | .drop :: ops =>
      if c = 0 then none
      else run (c - 1) (rel + if c = 1 then 1 else 0) ops

/-- Number of `clone` operations in a sequence. -/
def clones : List Op → Nat
  | [] => 0
  | .clone :: ops => clones ops + 1
  | .drop :: ops => clones ops

/-- Number of `drop` operations in a sequence. -/
def drops : List Op → Nat
  | [] => 0
  | .drop :: ops => drops ops + 1
  | .clone :: ops => drops ops

theorem run_zero {ops : List Op} {c rel r : Nat}
    (h : run 0 r ops = some (c, rel)) : ops = [] ∧ c = 0 ∧ rel = r := by
  cases ops with
  | nil =>
      simp only [run, Option.some.injEq, Prod.mk.injEq] at h
      exact ⟨rfl, h.1.symm, h.2.symm⟩
  | cons op rest => cases op <;> simp [run] at h

/-- Accounting invariant of any successful run from a live count: the
final count balances clones against drops, and the value is released
exactly once, at the drop that takes the count to zero. -/
theorem run_spec {ops : List Op} {c rel c1 rel1 : Nat} (hc : 1 ≤ c)
    (h : run c rel ops = some (c1, rel1)) :
    c1 + drops ops = c + clones ops ∧
    rel1 = rel + (if c1 = 0 then 1 else 0) := by
  induction ops generalizing c rel with
  | nil =>
      simp only [run, Option.some.injEq, Prod.mk.injEq] at h
      obtain ⟨h1, h2⟩ := h
      subst h1; subst h2
      refine ⟨by simp [clones, drops], ?_⟩
      rw [if_neg (by omega)]
      omega
  | cons op rest ih =>
      cases op with
      | clone =>
          rw [run, if_neg (by omega : ¬ c = 0)] at h
          obtain ⟨h1, h2⟩ := ih (by omega) h
          refine ⟨?_, h2⟩
          simp only [clones, drops] at h1 ⊢
          omega
      | drop =>
          rw [run, if_neg (by omega : ¬ c = 0)] at h
          by_cases h1 : c = 1
          · subst h1
            rw [if_pos rfl] at h
            simp only [Nat.sub_self] at h
            obtain ⟨he, hc0, hr⟩ := run_zero h
            subst he; subst hc0; subst hr
            simp [clones, drops]
          · rw [if_neg h1, Nat.add_zero] at h
            obtain ⟨h2, h3⟩ := ih (by omega) h
            refine ⟨?_, h3⟩
            simp only [clones, drops] at h2 ⊢
            omega

end TinyArc

/-! ## Shared helper lemmas -/

/-- A failed `try_irqsave_lock` restores the interrupt state and leaves
the system as it was: the temporary interrupt guard is dropped on the
`?` failure path. -/
theorem tryIrqsaveLock_fail {s s1 : Sys} {ev : List Ev}
    (h : SpinLock.tryIrqsaveLock s = (none, s1, ev)) :
    s1 = s ∧ ev = [.disableIrq, .restoreIrq s.irqOn] := by
  obtain ⟨irq, lk⟩ := s
  cases lk <;>
    simp_all [SpinLock.tryIrqsaveLock, SpinLock.tryLock, digNew, digDrop,
      LockState.tryWrite]

/-- A failed `try_irqsave_read` restores the interrupt state and leaves
the system as it was. -/
theorem tryIrqsaveRead_fail {s s1 : Sys} {ev : List Ev}
    (h : SpinLock.tryIrqsaveRead s = (none, s1, ev)) :
    s1 = s ∧ ev = [.disableIrq, .restoreIrq s.irqOn] := by
  obtain ⟨irq, lk⟩ := s
  cases lk <;>
    simp_all [SpinLock.tryIrqsaveRead, SpinLock.tryRead, digNew, digDrop,
      LockState.tryRead]

/-- Filtering a node id out of a list leaves a list not containing it. -/
theorem contains_filter_ne (x : Nat) (l : List Nat) :
    (l.filter fun y => y != x).contains x = false := by
  simp

/-! ## Claim theorems -/

/-- C1: the reader/writer spinlock follows the state machine {Unlocked,
SharedLocked(n≥1), ExclusiveLocked}: `try_write` succeeds only from
Unlocked, moving to ExclusiveLocked; `try_read` succeeds from Unlocked or
SharedLocked(n), moving to SharedLocked(n+1); releasing the last reader or
the writer returns to Unlocked; and in every reachable state at most one
writer — or any number of readers and no writer — holds the lock. -/
theorem rwlock_state_machine_c1 :
    (∀ s s' : LockState, LockState.tryWrite s = some s' →
        s = .unlocked ∧ s' = .exclusive) ∧
    (∀ s s' : LockState, LockState.tryRead s = some s' →
        (s = .unlocked ∧ s' = .shared 1) ∨
        (∃ n, s = .shared n ∧ s' = .shared (n + 1))) ∧
    LockState.releaseRead (.shared 1) = some .unlocked ∧
    LockState.releaseWrite .exclusive = some .unlocked ∧
    (∀ s : LockState, LockState.Reachable s →
        LockState.writers s ≤ 1 ∧
        (1 ≤ LockState.writers s → LockState.readers s = 0) ∧
        (∀ n, s = .shared n → 1 ≤ n)) := by
  refine ⟨?_, ?_, rfl, rfl, ?_⟩
  · intro s s' h
    cases s <;> simp_all [LockState.tryWrite]
  · intro s s' h
    cases s with
    | unlocked =>
        simp only [LockState.tryRead, Option.some.injEq] at h
        exact Or.inl ⟨rfl, h.symm⟩
    | shared n =>
        simp only [LockState.tryRead, Option.some.injEq] at h
        exact Or.inr ⟨n, rfl, h.symm⟩
    | exclusive => simp [LockState.tryRead] at h
  · intro s hs
    refine ⟨?_, ?_, ?_⟩
    · cases s <;> simp [LockState.writers]
    · cases s <;> simp [LockState.writers, LockState.readers]
    · intro n hn
      subst hn
      exact LockState.wf_of_reachable hs

/-- Witness for C1 at concrete inputs: `try_write` from Unlocked, and the
invariant at the reachable state SharedLocked(2). -/
theorem rwlock_state_machine_c1_witness :
    (LockState.unlocked = LockState.unlocked ∧
      LockState.exclusive = LockState.exclusive) ∧
    (LockState.writers (.shared 2) ≤ 1 ∧
      (1 ≤ LockState.writers (.shared 2) → LockState.readers (.shared 2) = 0) ∧
      (∀ n, LockState.shared 2 = .shared n → 1 ≤ n)) :=
  ⟨rwlock_state_machine_c1.1 .unlocked .exclusive rfl,
   rwlock_state_machine_c1.2.2.2.2 (.shared 2)
     (LockState.Reachable.read (LockState.Reachable.read LockState.Reachable.init rfl) rfl)⟩

/-- C2: `try_irqsave_lock` (resp. `try_irqsave_read`) disables interrupts
strictly before acquiring the lock, and dropping the returned guard
releases the lock strictly before restoring the interrupt state, as shown
by the acquisition trace `[disableIrq, acquire]` and the destruction trace
`[release, restoreIrq prior]`; the whole cycle returns the system to its
initial state.  The spinning `irqsave_lock` returns exactly a successful
`try_irqsave_lock` attempt made in the entry state. -/
theorem irqsave_order_c2 :
    (∀ (s : Sys) (g : SpinLock.Guard) (s1 s2 : Sys) (evA evD : List Ev),
        SpinLock.tryIrqsaveLock s = (some g, s1, evA) →
        SpinLock.dropGuard g s1 = (s2, evD) →
        evA = [.disableIrq, .acquireWrite] ∧
        evD = [.releaseWrite, .restoreIrq s.irqOn] ∧
        s2 = s) ∧
    (∀ (s : Sys) (g : SpinLock.ReadGuard) (s1 s2 : Sys) (evA evD : List Ev),
        LockState.WF s.lockSt →
        SpinLock.tryIrqsaveRead s = (some g, s1, evA) →
        SpinLock.dropReadGuard g s1 = (s2, evD) →
        evA = [.disableIrq, .acquireRead] ∧
        evD = [.releaseRead, .restoreIrq s.irqOn] ∧
        s2 = s) ∧
    (∀ (fuel : Nat) (s : Sys) (g : SpinLock.Guard) (s1 : Sys) (ev : List Ev),
        SpinLock.irqsaveLock fuel s = some (g, s1, ev) →
        SpinLock.tryIrqsaveLock s = (some g, s1, ev)) := by
  refine ⟨?_, ?_, ?_⟩
  · intro s g s1 s2 evA evD hA hD
    obtain ⟨irq, lk⟩ := s
    cases lk with
    | unlocked =>
        simp only [SpinLock.tryIrqsaveLock, SpinLock.tryLock, digNew, digDrop,
          LockState.tryWrite, Prod.mk.injEq, Option.some.injEq] at hA
        obtain ⟨hg, hs1, hev⟩ := hA
        subst hg; subst hs1; subst hev
        simp only [SpinLock.dropGuard, SpinLock.dropWriteLock, digDrop,
          Prod.mk.injEq] at hD
        obtain ⟨hs2, hev⟩ := hD
        exact ⟨rfl, hev.symm, hs2.symm⟩
    | shared n =>
        simp [SpinLock.tryIrqsaveLock, SpinLock.tryLock, digNew, digDrop,
          LockState.tryWrite] at hA
    | exclusive =>
        simp [SpinLock.tryIrqsaveLock, SpinLock.tryLock, digNew, digDrop,
          LockState.tryWrite] at hA
  · intro s g s1 s2 evA evD hwf hA hD
    obtain ⟨irq, lk⟩ := s
    cases lk with
    | unlocked =>
        simp only [SpinLock.tryIrqsaveRead, SpinLock.tryRead, digNew, digDrop,
          LockState.tryRead, Prod.mk.injEq, Option.some.injEq] at hA
        obtain ⟨hg, hs1, hev⟩ := hA
        subst hg; subst hs1; subst hev
        simp only [SpinLock.dropReadGuard, SpinLock.dropReadLock, digDrop,
          Prod.mk.injEq] at hD
        obtain ⟨hs2, hev⟩ := hD
        exact ⟨rfl, hev.symm, hs2.symm⟩
    | shared n =>
        match n, hwf with
        | m + 1, _ =>
          simp only [SpinLock.tryIrqsaveRead, SpinLock.tryRead, digNew, digDrop,
            LockState.tryRead, Prod.mk.injEq, Option.some.injEq] at hA
          obtain ⟨hg, hs1, hev⟩ := hA
          subst hg; subst hs1; subst hev
          simp only [SpinLock.dropReadGuard, SpinLock.dropReadLock, digDrop,
            Prod.mk.injEq] at hD
          obtain ⟨hs2, hev⟩ := hD
          exact ⟨rfl, hev.symm, hs2.symm⟩
    | exclusive =>
        simp [SpinLock.tryIrqsaveRead, SpinLock.tryRead, digNew, digDrop,
          LockState.tryRead] at hA
  · intro fuel
    induction fuel with
    | zero => intro s g s1 ev h; simp [SpinLock.irqsaveLock] at h
    | succ fuel ih =>
        intro s g s1 ev h
        rcases hA : SpinLock.tryIrqsaveLock s with ⟨r, sA, evA⟩
        cases r with
        | some g0 =>
            simp only [SpinLock.irqsaveLock, hA, Option.some.injEq,
              Prod.mk.injEq] at h
            obtain ⟨h1, h2, h3⟩ := h
            subst h1; subst h2; subst h3
            rfl
        | none =>
            simp only [SpinLock.irqsaveLock, hA] at h
            obtain ⟨hs, _⟩ := tryIrqsaveLock_fail hA
            subst hs
            have hcontra := ih _ g s1 ev h
            rw [hA] at hcontra
            simp at hcontra

/-- Witness for C2 at the concrete entry state (interrupts on, lock
unlocked), for the write path, the read path and one-fuel spin loop. -/
theorem irqsave_order_c2_witness :
    ([Ev.disableIrq, Ev.acquireWrite] = [Ev.disableIrq, Ev.acquireWrite] ∧
      [Ev.releaseWrite, Ev.restoreIrq true] = [Ev.releaseWrite, Ev.restoreIrq true] ∧
      (⟨true, .unlocked⟩ : Sys) = ⟨true, .unlocked⟩) ∧
    ([Ev.disableIrq, Ev.acquireRead] = [Ev.disableIrq, Ev.acquireRead] ∧
      [Ev.releaseRead, Ev.restoreIrq true] = [Ev.releaseRead, Ev.restoreIrq true] ∧
      (⟨true, .unlocked⟩ : Sys) = ⟨true, .unlocked⟩) ∧
    SpinLock.tryIrqsaveLock ⟨true, .unlocked⟩ =
      (some ⟨some ⟨true⟩⟩, ⟨false, .exclusive⟩, [.disableIrq, .acquireWrite]) :=
  ⟨irqsave_order_c2.1 ⟨true, .unlocked⟩ ⟨some ⟨true⟩⟩ ⟨false, .exclusive⟩
      ⟨true, .unlocked⟩ [.disableIrq, .acquireWrite]
      [.releaseWrite, .restoreIrq true] (by decide) (by decide),
   irqsave_order_c2.2.1 ⟨true, .unlocked⟩ ⟨some ⟨true⟩⟩ ⟨false, .shared 1⟩
      ⟨true, .unlocked⟩ [.disableIrq, .acquireRead]
      [.releaseRead, .restoreIrq true] trivial (by decide) (by decide),
   irqsave_order_c2.2.2 1 ⟨true, .unlocked⟩ ⟨some ⟨true⟩⟩ ⟨false, .exclusive⟩
      [.disableIrq, .acquireWrite] (by decide)⟩

/-- C3 counterexample: for the concrete pair of guards in which neither
holds the interrupt-restore capability, `take_irq_guard` leaves ZERO
guards responsible — contradicting "exactly one of the two guards ends up
responsible, never zero" — and dropping both guards afterwards re-enables
interrupts zero times, not exactly once. -/
theorem take_irq_guard_c3_counterexample :
    SpinLock.responsible
        (SpinLock.takeIrqGuard ⟨none⟩ ⟨none⟩ ⟨true, .exclusive⟩).1 = false ∧
    SpinLock.responsible
        (SpinLock.takeIrqGuard ⟨none⟩ ⟨none⟩ ⟨true, .exclusive⟩).2.1 = false ∧
    SpinLock.restores
        (SpinLock.dropGuard (SpinLock.takeIrqGuard ⟨none⟩ ⟨none⟩ ⟨true, .exclusive⟩).1
          ⟨false, .exclusive⟩).2 +
      SpinLock.restores
        (SpinLock.dropGuard (SpinLock.takeIrqGuard ⟨none⟩ ⟨none⟩ ⟨true, .exclusive⟩).2.1
          ⟨false, .exclusive⟩).2 = 0 := by
  decide

/-- C3 (amended): provided the source guard (`other`) holds the
interrupt-restore capability when `take_irq_guard` transfers it, exactly
one of the two guards — the destination — ends up responsible for
re-enabling interrupts, never zero, never two, and dropping both guards
re-enables interrupts exactly once. -/
theorem take_irq_guard_c3 :
    ∀ (self other : SpinLock.Guard) (s s1 s2 : Sys),
      SpinLock.responsible other = true →
      ((SpinLock.takeIrqGuard self other s).1.irqGuard = other.irqGuard ∧
        (SpinLock.takeIrqGuard self other s).2.1.irqGuard = none) ∧
      ((SpinLock.responsible (SpinLock.takeIrqGuard self other s).1).toNat +
        (SpinLock.responsible (SpinLock.takeIrqGuard self other s).2.1).toNat = 1) ∧
      (SpinLock.restores
          (SpinLock.dropGuard (SpinLock.takeIrqGuard self other s).1 s1).2 +
        SpinLock.restores
          (SpinLock.dropGuard (SpinLock.takeIrqGuard self other s).2.1 s2).2 = 1) := by
  intro self other s s1 s2 hresp
  obtain ⟨oi⟩ := other
  obtain ⟨si⟩ := self
  cases oi with
  | none => simp [SpinLock.responsible] at hresp
  | some og =>
      cases si <;>
        simp [SpinLock.takeIrqGuard, SpinLock.responsible, SpinLock.dropGuard,
          SpinLock.dropWriteLock, digDrop, SpinLock.restores]

/-- Witness for C3 (amended) at a concrete pair of guards: the source
holds the capability recording "interrupts were on", the
destination holds none. -/
theorem take_irq_guard_c3_witness :
    ((SpinLock.takeIrqGuard ⟨none⟩ ⟨some ⟨true⟩⟩ ⟨false, .exclusive⟩).1.irqGuard =
        (⟨some ⟨true⟩⟩ : SpinLock.Guard).irqGuard ∧
      (SpinLock.takeIrqGuard ⟨none⟩ ⟨some ⟨true⟩⟩ ⟨false, .exclusive⟩).2.1.irqGuard = none) ∧
    ((SpinLock.responsible
        (SpinLock.takeIrqGuard ⟨none⟩ ⟨some ⟨true⟩⟩ ⟨false, .exclusive⟩).1).toNat +
      (SpinLock.responsible
        (SpinLock.takeIrqGuard ⟨none⟩ ⟨some ⟨true⟩⟩ ⟨false, .exclusive⟩).2.1).toNat = 1) ∧
    (SpinLock.restores
        (SpinLock.dropGuard
          (SpinLock.takeIrqGuard ⟨none⟩ ⟨some ⟨true⟩⟩ ⟨false, .exclusive⟩).1
          ⟨false, .exclusive⟩).2 +
      SpinLock.restores
        (SpinLock.dropGuard
          (SpinLock.takeIrqGuard ⟨none⟩ ⟨some ⟨true⟩⟩ ⟨false, .exclusive⟩).2.1
          ⟨false, .shared 1⟩).2 = 1) :=
  take_irq_guard_c3 ⟨none⟩ ⟨some ⟨true⟩⟩ ⟨false, .exclusive⟩
    ⟨false, .exclusive⟩ ⟨false, .shared 1⟩ rfl

/-- C4: the `Relative` adapter composes offsets by
`From::offset().wrapping_sub(To::offset())`, which — read as a
two's-complement signed value, the sense in which the spec calls it a
signed offset — equals `From::offset() - To::offset()`; and for the
concrete `#[repr(C)]` two-field struct `Foo { a: u32, b: u32 }`, the
relative offset from the second field to the first equals the size of the
first field (4 bytes). -/
theorem relative_offset_c4 :
    (∀ frm tgt : Adapter, frm.offset < 2 ^ 63 → tgt.offset < 2 ^ 63 →
        toSigned64 (Relative frm tgt).offset =
          (frm.offset : Int) - (tgt.offset : Int)) ∧
    (Relative fooB fooA).offset = (fooFields.getD 0 (0, 0)).1 ∧
    (fooFields.getD 0 (0, 0)).1 = 4 := by
  refine ⟨?_, by decide, by decide⟩
  intro frm tgt h1 h2
  simp only [Relative, wrappingSub64, toSigned64, W64]
  have hW : (2 : Nat) ^ 64 = 18446744073709551616 := by norm_num
  have h63 : (2 : Nat) ^ 63 = 9223372036854775808 := by norm_num
  have hi63 : (2 : Int) ^ 63 = 9223372036854775808 := by norm_num
  rw [hW] at *
  rw [h63] at *
  have hma : frm.offset % 18446744073709551616 = frm.offset :=
    Nat.mod_eq_of_lt (by omega)
  have hmb : tgt.offset % 18446744073709551616 = tgt.offset :=
    Nat.mod_eq_of_lt (by omega)
  rw [hma, hmb]
  rcases le_or_lt tgt.offset frm.offset with hle | hlt
  · have hmod : (frm.offset + (18446744073709551616 - tgt.offset)) %
        18446744073709551616 = frm.offset - tgt.offset := by omega
    rw [hmod, if_pos (by omega)]
    push_cast [hle]
    ring
  · have hmod : (frm.offset + (18446744073709551616 - tgt.offset)) %
        18446744073709551616 =
        frm.offset + (18446744073709551616 - tgt.offset) :=
      Nat.mod_eq_of_lt (by omega)
    rw [hmod, if_neg (by omega)]
    push_cast
    omega

/-- Witness for C4 at the concrete adapters of the test struct `Foo`:
`From = B` (second field), `To = A` (first field). -/
theorem relative_offset_c4_witness :
    toSigned64 (Relative fooB fooA).offset =
      (fooB.offset : Int) - (fooA.offset : Int) :=
  relative_offset_c4.1 fooB fooA (by decide) (by decide)

/-- C5: inserting a node that is already linked into a list is rejected,
detected via the node's link state: the insertion leaves every list
unchanged and `insert_after` reports that the operation had no effect. -/
theorem insert_linked_rejected_c5 :
    ∀ (ls : ArcList.Lists) (i x : Nat),
      ArcList.linked ls x = true →
      ArcList.insertAfter ls i x = (ls, false) := by
  intro ls i x h
  simp [ArcList.insertAfter, h]

/-- Witness for C5: inserting node 1, already linked in the single list
`[1]`, into that list. -/
theorem insert_linked_rejected_c5_witness :
    ArcList.linked [[1]] 1 = true ∧
    ArcList.insertAfter [[1]] 0 1 = ([[1]], false) :=
  ⟨by decide, insert_linked_rejected_c5 [[1]] 0 1 (by decide)⟩

/-- C6: `detach` on a node not linked in any list is a no-op: it returns
`false` and leaves every list unchanged; on a linked node it reports
effect (`true`) and removes the node, which afterwards is linked in no
list (ownership of the handle stays with the caller). -/
theorem detach_c6 :
    ∀ (ls : ArcList.Lists) (x : Nat),
      (ArcList.linked ls x = false → ArcList.detach ls x = (ls, false)) ∧
      (ArcList.linked ls x = true →
        (ArcList.detach ls x).2 = true ∧
        ArcList.linked (ArcList.detach ls x).1 x = false) := by
  intro ls x
  constructor
  · intro h
    simp [ArcList.detach, h]
  · intro h
    refine ⟨by simp [ArcList.detach, h], ?_⟩
    simp only [ArcList.detach, h, if_pos]
    simp only [ArcList.linked, List.any_map, List.any_eq_false, Function.comp]
    intro l _
    simp [contains_filter_ne x l]

/-- Witness for C6: detaching node 5 (unlinked) from `[[1]]` is a no-op
returning `false`; detaching node 2 (linked) from `[[1, 2]]` reports
`true` and leaves node 2 unlinked. -/
theorem detach_c6_witness :
    ArcList.detach [[1]] 5 = ([[1]], false) ∧
    ((ArcList.detach [[1, 2]] 2).2 = true ∧
      ArcList.linked (ArcList.detach [[1, 2]] 2).1 2 = false) :=
  ⟨(detach_c6 [[1]] 5).1 (by decide), (detach_c6 [[1, 2]] 2).2 (by decide)⟩

/-- C7: for every valid sequence of `clone`/`drop` operations on an
atomic reference-counted pointer starting from one handle, the value is
released at most once, it is released exactly once precisely when the
last live handle has been dropped, the strong count exactly balances
handles (so with N live handles the count is N, in particular ≥ N), and
the count never underflows (`drops ≤ 1 + clones`). -/
theorem arc_release_once_c7 :
    ∀ (ops : List TinyArc.Op) (c1 rel1 : Nat),
      TinyArc.run 1 0 ops = some (c1, rel1) →
      rel1 ≤ 1 ∧
      (rel1 = 1 ↔ c1 = 0) ∧
      c1 + TinyArc.drops ops = 1 + TinyArc.clones ops ∧
      TinyArc.drops ops ≤ 1 + TinyArc.clones ops := by
  intro ops c1 rel1 h
  obtain ⟨h1, h2⟩ := TinyArc.run_spec (by omega) h
  by_cases hc : c1 = 0
  · subst hc
    rw [if_pos rfl] at h2
    exact ⟨by omega, by omega, h1, by omega⟩
  · rw [if_neg hc] at h2
    exact ⟨by omega, by constructor <;> omega, h1, by omega⟩

/-- Witness for C7 on the sequence clone, drop, drop: two handles, both
dropped, value released exactly once at the second drop. -/
theorem arc_release_once_c7_witness :
    1 ≤ 1 ∧ ((1 : Nat) = 1 ↔ (0 : Nat) = 0) ∧
    0 + TinyArc.drops [.clone, .drop, .drop] =
      1 + TinyArc.clones [.clone, .drop, .drop] ∧
    TinyArc.drops [.clone, .drop, .drop] ≤
      1 + TinyArc.clones [.clone, .drop, .drop] :=
  arc_release_once_c7 [.clone, .drop, .drop] 0 1 (by decide)

/-- C8: the `Nested` adapter composes offsets additively:
`Nested::<P, S, N, T>::offset() = S::offset() + T::offset()` for every
pair of component adapters. -/
theorem nested_offset_c8 :
    ∀ s t : Adapter, (Nested s t).offset = s.offset + t.offset :=
  fun _ _ => rfl

/-- C9: whenever `try_irqsave_lock` or `try_irqsave_read` fails to take
the lock, it returns `None` with the interrupt-enable state already
restored to its value at entry (the temporary interrupt guard is dropped
on the failure path), leaving the system exactly as it was; hence the
spin loop of `irqsave_lock` re-runs each failed attempt from the entry
state, with interrupts re-enabled between successive attempts. -/
theorem failed_irqsave_restores_c9 :
    (∀ (s s1 : Sys) (ev : List Ev),
        SpinLock.tryIrqsaveLock s = (none, s1, ev) →
        s1 = s ∧ ev = [.disableIrq, .restoreIrq s.irqOn]) ∧
    (∀ (s s1 : Sys) (ev : List Ev),
        SpinLock.tryIrqsaveRead s = (none, s1, ev) →
        s1 = s ∧ ev = [.disableIrq, .restoreIrq s.irqOn]) ∧
    (∀ (fuel : Nat) (s s1 : Sys) (ev : List Ev),
        SpinLock.tryIrqsaveLock s = (none, s1, ev) →
        SpinLock.irqsaveLock (fuel + 1) s = SpinLock.irqsaveLock fuel s) := by
  refine ⟨fun s s1 ev h => tryIrqsaveLock_fail h,
    fun s s1 ev h => tryIrqsaveRead_fail h, ?_⟩
  intro fuel s s1 ev h
  obtain ⟨hs, _⟩ := tryIrqsaveLock_fail h
  subst hs
  simp [SpinLock.irqsaveLock, h]

/-- Witness for C9 at the contended state (lock held exclusively,
interrupts on): the failed attempt hands back the entry state and the
trace disable-then-restore. -/
theorem failed_irqsave_restores_c9_witness :
    ((⟨true, .exclusive⟩ : Sys) = ⟨true, .exclusive⟩ ∧
      [Ev.disableIrq, Ev.restoreIrq true] = [Ev.disableIrq, Ev.restoreIrq true]) ∧
    ((⟨true, .exclusive⟩ : Sys) = ⟨true, .exclusive⟩ ∧
      [Ev.disableIrq, Ev.restoreIrq true] = [Ev.disableIrq, Ev.restoreIrq true]) ∧
    SpinLock.irqsaveLock 1 ⟨true, .exclusive⟩ =
      SpinLock.irqsaveLock 0 ⟨true, .exclusive⟩ :=
  ⟨failed_irqsave_restores_c9.1 ⟨true, .exclusive⟩ ⟨true, .exclusive⟩
      [.disableIrq, .restoreIrq true] (by decide),
   failed_irqsave_restores_c9.2.1 ⟨true, .exclusive⟩ ⟨true, .exclusive⟩
      [.disableIrq, .restoreIrq true] (by decide),
   failed_irqsave_restores_c9.2.2 0 ⟨true, .exclusive⟩ ⟨true, .exclusive⟩
      [.disableIrq, .restoreIrq true] (by decide)⟩

/-- C10: `forget_irq` discards the guard's interrupt-restore capability
without restoring interrupts: no event is emitted, the guard afterwards
holds no capability, and its destruction releases only the lock — the
interrupt-enable state is untouched and the discarded capability's
re-enable action never runs; on a guard holding no capability,
`forget_irq` changes nothing. -/
theorem forget_irq_c10 :
    ∀ (g : SpinLock.Guard) (s : Sys),
      (SpinLock.forgetIrq g).1.irqGuard = none ∧
      (SpinLock.forgetIrq g).2 = [] ∧
      SpinLock.dropGuard (SpinLock.forgetIrq g).1 s = SpinLock.dropWriteLock s ∧
      (SpinLock.dropGuard (SpinLock.forgetIrq g).1 s).2 = [.releaseWrite] ∧
      (SpinLock.dropGuard (SpinLock.forgetIrq g).1 s).1.irqOn = s.irqOn ∧
      SpinLock.forgetIrq ⟨none⟩ = (⟨none⟩, []) := by
  intro g s
  obtain ⟨gi⟩ := g
  cases gi <;>
    simp [SpinLock.forgetIrq, SpinLock.dropGuard, SpinLock.dropWriteLock]

end KernelCore
